import Mathlib

/-!
Verification of the HRMS-Lite persistence and integrity core.

The data model and operations below are a shallow embedding of the
backend: the entity tables (`models.py`), the boundary validation
(`schemas.py`), the crud operations (`crud.py`) and the dashboard
aggregation (`main.py`).  The relational store is modelled as an
explicit state (`DB`) threaded through every operation; calendar dates
are modelled as natural numbers (only equality and order on dates are
ever used by the code).
-/

deriving instance DecidableEq for Except

namespace HRMS

/-! ## Data model (models.py) -/

/-- `AttendanceStatus` enum from models.py: the closed two-value status domain. -/
inductive AttendanceStatus where
  | Present
  | Absent
deriving DecidableEq

/-- Employee row (models.py `Employee`): `employee_id` is the primary key. -/
structure Employee where
  employee_id : String
  name : String
  email : String
  department : String
deriving DecidableEq

/-- Attendance row (models.py `Attendance`): auto-increment integer `id`,
foreign key `employee_id`, a calendar date and a status. -/
structure Attendance where
  id : Nat
  employee_id : String
  date : Nat
  status : AttendanceStatus
deriving DecidableEq

/-- The relational store: the `employees` and `attendance` tables plus the
auto-increment counter backing `Attendance.id`. -/
structure DB where
  employees : List Employee
  attendance : List Attendance
  next_attendance_id : Nat
deriving DecidableEq

/-- A freshly initialised store (init_db): both tables empty. -/
def emptyDB : DB := ⟨[], [], 1⟩

/-- The error taxonomy of the core, as named by the API layer: pydantic
validation failures (422), the duplicate-id conflict (409) and the
missing-employee lookup failure (404). -/
inductive CrudError where
  | DuplicateEmployee
  | EmployeeNotFound
  | RequiredFieldMissing
  | InvalidEmailFormat
  | InvalidStatusValue
deriving DecidableEq

/-! ## Boundary validation (schemas.py) -/

/-- Request body for employee creation (schemas.py `EmployeeCreate`),
after all four required fields were supplied. -/
structure EmployeeCreate where
  employee_id : String
  name : String
  email : String
  department : String
deriving DecidableEq

/-- Raw employee request payload: each field may be absent. -/
structure EmployeePayload where
  employee_id : Option String
  name : Option String
  email : Option String
  department : Option String
deriving DecidableEq

/-- Field-presence check: every field of `EmployeeCreate` is declared
required (`Field(...)`), so an absent field rejects the request.  The
per-field validation and the email normalization that pydantic applies
while constructing the model follow in `validate_employee_fields`. -/
def parse_employee_payload (p : EmployeePayload) : Except CrudError EmployeeCreate :=
  match p.employee_id, p.name, p.email, p.department with
  | some i, some n, some e, some d => .ok ⟨i, n, e, d⟩
  | _, _, _, _ => .error .RequiredFieldMissing

/-- Request body for attendance creation (schemas.py `AttendanceCreate`). -/
structure AttendanceCreate where
  employee_id : String
  date : Nat
  status : String
deriving DecidableEq

/-- Character class `[a-zA-Z0-9._%+-]` of the local part of the email
pattern in schemas.py. -/
def isLocalChar (c : Char) : Bool :=
  c.isAlphanum || c = '.' || c = '_' || c = '%' || c = '+' || c = '-'

/-- Character class `[a-zA-Z0-9.-]` of the domain part of the email
pattern in schemas.py. -/
def isDomainChar (c : Char) : Bool :=
  c.isAlphanum || c = '.' || c = '-'

/-- Split a character list at its last '.', returning the parts before
and after it; `none` when no '.' occurs. -/
def splitAtLastDot : List Char → Option (List Char × List Char)
  | [] => none
  | c :: rest =>
    match splitAtLastDot rest with
    | some (d, t) => some (c :: d, t)
    | none => if c = '.' then some ([], rest) else none

/-- Decide whether a character list matches the domain half
`[a-zA-Z0-9.-]+\.[a-zA-Z]{2,}` of the email pattern: the part after the
last '.' must be purely alphabetic of length at least 2 (an earlier '.'
cannot work, since the top-level segment admits no '.'). -/
def domainMatch (cs : List Char) : Bool :=
  match splitAtLastDot cs with
  | none => false
  | some (d, t) => !d.isEmpty && d.all isDomainChar && t.all Char.isAlpha && decide (2 ≤ t.length)

/-- Split a character list at its first '@', returning the parts before
and after it; `none` when no '@' occurs. -/
def splitAtFirstAt : List Char → Option (List Char × List Char)
  | [] => none
  | c :: rest =>
    if c = '@' then some ([], rest)
    else
      match splitAtFirstAt rest with
      | some (l, r) => some (c :: l, r)
      | none => none

/-- The anchored email pattern of schemas.py
(`[a-zA-Z0-9._%+-]+@[a-zA-Z0-9.-]+\.[a-zA-Z]{2,}` over the whole
string).  Neither character class contains '@', so the split at the
first '@' is the only candidate decomposition. -/
def email_matches (s : String) : Bool :=
  match splitAtFirstAt s.toList with
  | none => false
  | some (l, rest) => !l.isEmpty && l.all isLocalChar && domainMatch rest

/-- The email pattern as the specification states it: some decomposition
`local @ domain . tld` with a non-empty local part over
`[A-Za-z0-9._%+-]`, a non-empty domain over `[A-Za-z0-9.-]`, and a
purely alphabetic top-level segment of length at least 2. -/
def EmailPattern (s : String) : Prop :=
  ∃ l d t : List Char,
    s.toList = l ++ '@' :: (d ++ '.' :: t) ∧
    l ≠ [] ∧ l.all isLocalChar = true ∧
    d ≠ [] ∧ d.all isDomainChar = true ∧
    t.all Char.isAlpha = true ∧ 2 ≤ t.length

/-- Whitespace characters removed by Python str.strip (ASCII range). -/
def isPySpace (c : Char) : Bool :=
  c = ' ' || c = '\t' || c = '\n' || c = '\r' || c = Char.ofNat 11 || c = Char.ofNat 12

/-- Python str.strip on a character list: leading and trailing
whitespace removed. -/
def pyStripChars (cs : List Char) : List Char :=
  ((cs.dropWhile isPySpace).reverse.dropWhile isPySpace).reverse

/-- RFC 5322 atext characters (ASCII), the set email-validator accepts
between the dots of a local part. -/
def isAtext (c : Char) : Bool :=
  c.isAlphanum || c = '!' || c = '#' || c = '$' || c = '%' || c = '&' ||
  c = Char.ofNat 39 || c = '*' || c = '+' || c = '-' || c = '/' || c = '=' ||
  c = '?' || c = '^' || c = '_' || c = Char.ofNat 96 || c = Char.ofNat 123 ||
  c = '|' || c = Char.ofNat 125 || c = '~'

/-- No two adjacent dots. -/
def noConsecDots : List Char → Bool
  | [] => true
  | [_] => true
  | c :: d :: t => !(c = '.' && d = '.') && noConsecDots (d :: t)

/-- Dot-atom check for the local part of an address: non-empty, at most
64 characters, atext characters separated by single interior dots (a
dot may be neither leading, trailing nor doubled). -/
def localPartOk (l : List Char) : Bool :=
  !l.isEmpty && decide (l.length ≤ 64) &&
  l.all (fun c => isAtext c || c = '.') &&
  !(decide (l.head? = some '.')) && !(decide (l.getLast? = some '.')) &&
  noConsecDots l

/-- Characters allowed inside a hostname label. -/
def isDomainLabelChar (c : Char) : Bool := c.isAlphanum || c = '-'

/-- One hostname label: non-empty, at most 63 characters, letters,
digits and hyphens, neither starting nor ending with a hyphen. -/
def domainLabelOk (l : List Char) : Bool :=
  !l.isEmpty && decide (l.length ≤ 63) && l.all isDomainLabelChar &&
  !(decide (l.head? = some '-')) && !(decide (l.getLast? = some '-'))

/-- Split a character list on dots. -/
def splitOnDot : List Char → List (List Char)
  | [] => [[]]
  | c :: t =>
    if c = '.' then [] :: splitOnDot t
    else
      match splitOnDot t with
      | [] => [[c]]
      | h :: r => (c :: h) :: r

/-- Hostname check for the domain of an address: at most 253
characters, at least two dot-separated labels, every label valid. -/
def domainOk (d : List Char) : Bool :=
  decide (d.length ≤ 253) &&
  (let labels := splitOnDot d
   decide (2 ≤ labels.length) && labels.all domainLabelOk)

/-- The pydantic v2 `EmailStr` check applied to the email field of
`EmployeeCreate` (schemas.py line 15), modelled for plain ASCII
addresses: pydantic's `validate_email` strips surrounding whitespace,
then email-validator (with deliverability checks disabled) requires
exactly one '@', a dot-atom local part and a hostname-shaped domain,
and the accepted address is returned in normalized form — the local
part as given, the domain lowercased.  Display-name and quoted-string
forms, internationalized (non-ASCII) addresses and their IDNA encoding
are outside the modelled scope. -/
def email_str_validate (s : String) : Option String :=
  let t := pyStripChars s.toList
  match splitAtFirstAt t with
  | none => none
  | some (l, d) =>
    if d.contains '@' then none
    else if localPartOk l && domainOk d then
      some ⟨l ++ '@' :: d.map Char.toLower⟩
    else none

/-- Field validation of `EmployeeCreate` (schemas.py), producing the
validated model instance: `employee_id`, `name` and `department` carry
`min_length=1` (no whitespace stripping); the email field is first
validated and normalized by `EmailStr`, and the regex `field_validator`
(running after the field type, pydantic mode `after`) then checks the
pattern on the normalized value.  The returned instance — the one the
endpoint hands to crud — carries the normalized email. -/
def validate_employee_fields (c : EmployeeCreate) : Except CrudError EmployeeCreate :=
  if c.employee_id = "" then .error .RequiredFieldMissing
  else if c.name = "" then .error .RequiredFieldMissing
  else
    match email_str_validate c.email with
    | none => .error .InvalidEmailFormat
    | some n =>
      if email_matches n then
        (if c.department = "" then .error .RequiredFieldMissing
         else .ok { c with email := n })
      else .error .InvalidEmailFormat

/-- The `Literal["Present", "Absent"]` check on `AttendanceCreate.status`:
an exact, case-sensitive string comparison with no trimming. -/
def validate_attendance_status (s : String) : Bool :=
  s = "Present" || s = "Absent"

/-- Field validation of `AttendanceCreate` (schemas.py): `employee_id`
carries `min_length=1` and `status` is restricted to the literal values. -/
def validate_attendance_fields (c : AttendanceCreate) : Except CrudError Unit :=
  if c.employee_id = "" then .error .RequiredFieldMissing
  else if validate_attendance_status c.status then .ok ()
  else .error .InvalidStatusValue

/-! ## Crud operations (crud.py) -/

/-- Failure the store itself can report on insert (sqlalchemy
`IntegrityError`, raised by the primary-key constraint on
`employees.employee_id`). -/
inductive InsertError where
  | IntegrityError
deriving DecidableEq

/-- The `Employee` row built by `create_employee` from the validated
request: every field is copied verbatim. -/
def empOf (c : EmployeeCreate) : Employee :=
  ⟨c.employee_id, c.name, c.email, c.department⟩

/-- Store-level insert into `employees`: the primary-key constraint on
`employee_id` turns a conflicting insert into an `IntegrityError`. -/
def db_insert_employee (db : DB) (e : Employee) : Except InsertError DB :=
  if db.employees.any (fun x => decide (x.employee_id = e.employee_id)) then
    .error .IntegrityError
  else
    .ok { db with employees := db.employees ++ [e] }

/-- The try/except block of `create_employee` (crud.py lines 50-57): the
insert is attempted, and an `IntegrityError` from the store rolls back
and is re-reported as `DuplicateEmployee`. -/
def insert_employee_step (db : DB) (c : EmployeeCreate) : DB × Except CrudError Employee :=
  match db_insert_employee db (empOf c) with
  | .ok db2 => (db2, .ok (empOf c))
  | .error .IntegrityError => (db, .error .DuplicateEmployee)

/-- crud.py `create_employee`: pre-check `employee_id` uniqueness, then
insert inside the try/except that normalises a store-reported conflict. -/
def create_employee (db : DB) (c : EmployeeCreate) : DB × Except CrudError Employee :=
  if db.employees.any (fun x => decide (x.employee_id = c.employee_id)) then
    (db, .error .DuplicateEmployee)
  else
    insert_employee_step db c

/-- crud.py `get_all_employees`: the whole `employees` table. -/
def get_all_employees (db : DB) : List Employee :=
  db.employees

/-- crud.py `delete_employee`: returns `false` when the id is unknown;
otherwise removes the employee row (`employee_id` is the primary key, so
at most one row matches) together with — through the
`cascade="all, delete-orphan"` relationship of models.py — every
attendance row referencing it, and returns `true`. -/
def delete_employee (db : DB) (employee_id : String) : DB × Bool :=
  if db.employees.any (fun x => decide (x.employee_id = employee_id)) then
    ({ db with
        employees := db.employees.filter (fun x => decide (x.employee_id ≠ employee_id)),
        attendance := db.attendance.filter (fun a => decide (a.employee_id ≠ employee_id)) },
      true)
  else
    (db, false)

/-- The status-string-to-enum conversion of crud.py line 113. -/
def statusEnumOf (s : String) : AttendanceStatus :=
  if s = "Present" then .Present else .Absent

/-- crud.py `create_attendance`: verify the employee exists (else
`EmployeeNotFoundError`, no write), then persist a row under a fresh
auto-increment id. -/
def create_attendance (db : DB) (c : AttendanceCreate) : DB × Except CrudError Attendance :=
  if db.employees.any (fun x => decide (x.employee_id = c.employee_id)) then
    let a : Attendance := ⟨db.next_attendance_id, c.employee_id, c.date, statusEnumOf c.status⟩
    ({ db with
        attendance := db.attendance ++ [a],
        next_attendance_id := db.next_attendance_id + 1 },
      .ok a)
  else
    (db, .error .EmployeeNotFound)

/-- Date-descending comparison used by `order_by(Attendance.date.desc())`. -/
def dateDesc (a b : Attendance) : Bool := decide (b.date ≤ a.date)

/-- crud.py `get_attendance_by_employee`: verify the employee exists
(else `EmployeeNotFoundError`), then return that employee's attendance
rows ordered by date descending. -/
def get_attendance_by_employee (db : DB) (employee_id : String) :
    Except CrudError (List Attendance) :=
  if db.employees.any (fun x => decide (x.employee_id = employee_id)) then
    .ok ((db.attendance.filter (fun a => decide (a.employee_id = employee_id))).mergeSort dateDesc)
  else
    .error .EmployeeNotFound

/-! ## API layer (main.py endpoints): schema validation runs before crud -/

/-- main.py `POST /employees`: pydantic parses, validates and
normalizes the payload before `create_employee` is reached; crud
receives the validated model instance. -/
def create_employee_endpoint (db : DB) (p : EmployeePayload) : DB × Except CrudError Employee :=
  match parse_employee_payload p with
  | .error e => (db, .error e)
  | .ok c0 =>
    match validate_employee_fields c0 with
    | .error e => (db, .error e)
    | .ok c => create_employee db c

/-- main.py `POST /attendance`: pydantic validates the body (in
particular the `Literal` status check) before `create_attendance`. -/
def create_attendance_endpoint (db : DB) (c : AttendanceCreate) : DB × Except CrudError Attendance :=
  match validate_attendance_fields c with
  | .error e => (db, .error e)
  | .ok _ => create_attendance db c

/-! ## Dashboard aggregation (main.py `get_dashboard_stats`) -/

/-- `AttendanceStatus.value`: the string stored in the enum. -/
def statusValue : AttendanceStatus → String
  | .Present => "Present"
  | .Absent => "Absent"

/-- One row of the `recent_attendance` dashboard list. -/
structure RecentEntry where
  employee_id : String
  employee_name : String
  date : Nat
  status : String
deriving DecidableEq

/-- The dashboard response body. -/
structure DashboardStats where
  total_employees : Nat
  total_attendance : Nat
  present_today : Nat
  absent_today : Nat
  departments : List (String × Nat)
  recent_attendance : List RecentEntry
deriving DecidableEq

/-- The department `GROUP BY` of the dashboard: one entry per distinct
department value, carrying the number of employees in it. -/
def dept_distribution (db : DB) : List (String × Nat) :=
  let depts := db.employees.map (fun e => e.department)
  depts.dedup.map (fun d => (d, depts.count d))

/-- The inner join `attendance JOIN employees` used by the dashboard's
recent-attendance query. -/
def attendance_employee_join (db : DB) : List (Attendance × Employee) :=
  db.attendance.filterMap (fun a =>
    match db.employees.find? (fun e => decide (e.employee_id = a.employee_id)) with
    | some e => some (a, e)
    | none => none)

/-- Date-descending comparison on joined rows. -/
def joinDateDesc (p q : Attendance × Employee) : Bool := decide (q.1.date ≤ p.1.date)

/-- main.py `get_dashboard_stats`: cardinalities, today's counts
partitioned by status, the department distribution, and the five most
recent attendance rows joined with their employee's name. -/
def get_dashboard_stats (db : DB) (today : Nat) : DashboardStats :=
  { total_employees := db.employees.length
    total_attendance := db.attendance.length
    present_today :=
      (db.attendance.filter (fun a =>
        decide (a.date = today) && decide (a.status = AttendanceStatus.Present))).length
    absent_today :=
      (db.attendance.filter (fun a =>
        decide (a.date = today) && decide (a.status = AttendanceStatus.Absent))).length
    departments := dept_distribution db
    recent_attendance :=
      (((attendance_employee_join db).mergeSort joinDateDesc).take 5).map
        (fun p => ⟨p.1.employee_id, p.2.name, p.1.date, statusValue p.1.status⟩) }

/-! ## Reachable store states -/

/-- The mutating requests the API exposes. -/
inductive Op where
  | createEmp (p : EmployeePayload)
  | deleteEmp (employee_id : String)
  | createAtt (c : AttendanceCreate)

/-- The store state after a request: a rejected request leaves the
state as it was. -/
def applyOp (db : DB) : Op → DB
  | .createEmp p => (create_employee_endpoint db p).1
  | .deleteEmp i => (delete_employee db i).1
  | .createAtt c => (create_attendance_endpoint db c).1

/-- Store states reachable from a fresh store through the API. -/
inductive Reachable : DB → Prop where
  | empty : Reachable emptyDB
  | step {db : DB} (op : Op) : Reachable db → Reachable (applyOp db op)

/-- Referential integrity: every attendance row names an existing employee. -/
def RefIntegrity (db : DB) : Prop :=
  ∀ a ∈ db.attendance, ∃ e ∈ db.employees, e.employee_id = a.employee_id

/-- Uniqueness of the employee primary key. -/
def EmpUnique (db : DB) : Prop :=
  (db.employees.map (fun e => e.employee_id)).Nodup

instance (db : DB) : Decidable (RefIntegrity db) :=
  inferInstanceAs (Decidable (∀ a ∈ db.attendance, ∃ e ∈ db.employees, e.employee_id = a.employee_id))

instance (db : DB) : Decidable (EmpUnique db) := by
  unfold EmpUnique
  infer_instance

/-- The store invariant: primary-key uniqueness of employees, plus
referential integrity of attendance. -/
def StoreInv (db : DB) : Prop := RefIntegrity db ∧ EmpUnique db

/-- A request payload with all four fields supplied. -/
def payloadOf (c : EmployeeCreate) : EmployeePayload :=
  ⟨some c.employee_id, some c.name, some c.email, some c.department⟩

/-! ## Concrete fixtures used by the witnesses -/

def empAnn : Employee := ⟨"E1", "Ann", "ann@co.com", "Eng"⟩

def dbOne : DB := ⟨[empAnn], [], 1⟩

def dbTwo : DB := ⟨[empAnn], [⟨1, "E1", 5, .Present⟩, ⟨2, "E1", 9, .Absent⟩], 3⟩

/-! ## Helper lemmas about the email matcher -/

theorem splitAtFirstAt_eq_some {cs l r : List Char}
    (h : splitAtFirstAt cs = some (l, r)) : cs = l ++ '@' :: r := by
  induction cs generalizing l r with
  | nil => simp [splitAtFirstAt] at h
  | cons c rest ih =>
    by_cases hc : c = '@'
    · simp [splitAtFirstAt, hc] at h
      obtain ⟨rfl, rfl⟩ := h
      simp [hc]
    · simp only [splitAtFirstAt, if_neg hc] at h
      cases hs : splitAtFirstAt rest with
      | none => simp [hs] at h
      | some p =>
        obtain ⟨l2, r2⟩ := p
        simp [hs] at h
        obtain ⟨rfl, rfl⟩ := h
        simp [ih hs]

theorem splitAtFirstAt_append {l r : List Char} (h : ∀ c ∈ l, c ≠ '@') :
    splitAtFirstAt (l ++ '@' :: r) = some (l, r) := by
  induction l with
  | nil => simp [splitAtFirstAt]
  | cons c t ih =>
    have hc : c ≠ '@' := h c (by simp)
    simp only [List.cons_append, splitAtFirstAt, if_neg hc, List.append_eq]
    rw [ih (fun x hx => h x (by simp [hx]))]

theorem splitAtLastDot_eq_some {cs d t : List Char}
    (h : splitAtLastDot cs = some (d, t)) : cs = d ++ '.' :: t := by
  induction cs generalizing d t with
  | nil => simp [splitAtLastDot] at h
  | cons c rest ih =>
    simp only [splitAtLastDot] at h
    cases hs : splitAtLastDot rest with
    | none =>
      simp only [hs] at h
      by_cases hc : c = '.'
      · simp [hc] at h
        obtain ⟨rfl, rfl⟩ := h
        simp [hc]
      · simp [hc] at h
    | some p =>
      obtain ⟨d2, t2⟩ := p
      simp [hs] at h
      obtain ⟨rfl, rfl⟩ := h
      simp [ih hs]

theorem splitAtLastDot_eq_none {cs : List Char} (h : ∀ c ∈ cs, c ≠ '.') :
    splitAtLastDot cs = none := by
  induction cs with
  | nil => simp [splitAtLastDot]
  | cons c rest ih =>
    have hc : c ≠ '.' := h c (by simp)
    simp [splitAtLastDot, ih (fun x hx => h x (by simp [hx])), hc]

theorem splitAtLastDot_append {d t : List Char} (h : ∀ c ∈ t, c ≠ '.') :
    splitAtLastDot (d ++ '.' :: t) = some (d, t) := by
  induction d with
  | nil => simp [splitAtLastDot, splitAtLastDot_eq_none h]
  | cons c d2 ih => simp [splitAtLastDot, ih]

theorem no_at_of_all_localChar {l : List Char} (h : l.all isLocalChar = true) :
    ∀ c ∈ l, c ≠ '@' := by
  intro c hc heq
  have := (List.all_eq_true.mp h) c hc
  rw [heq] at this
  simp [isLocalChar, Char.isAlphanum, Char.isAlpha, Char.isUpper, Char.isLower, Char.isDigit] at this

theorem no_dot_of_all_alpha {t : List Char} (h : t.all Char.isAlpha = true) :
    ∀ c ∈ t, c ≠ '.' := by
  intro c hc heq
  have := (List.all_eq_true.mp h) c hc
  rw [heq] at this
  simp [Char.isAlpha, Char.isUpper, Char.isLower] at this

/-- The executable matcher decides exactly the email pattern stated by
the specification. -/
theorem email_matches_iff (s : String) : email_matches s = true ↔ EmailPattern s := by
  constructor
  · intro h
    unfold email_matches at h
    cases hs : splitAtFirstAt s.toList with
    | none => rw [hs] at h; simp at h
    | some p =>
      obtain ⟨l, rest⟩ := p
      rw [hs] at h
      simp only [Bool.and_eq_true, Bool.not_eq_true'] at h
      obtain ⟨⟨hne, hloc⟩, hdom⟩ := h
      unfold domainMatch at hdom
      cases hd : splitAtLastDot rest with
      | none => rw [hd] at hdom; simp at hdom
      | some q =>
        obtain ⟨d, t⟩ := q
        rw [hd] at hdom
        simp only [Bool.and_eq_true, Bool.not_eq_true', decide_eq_true_eq] at hdom
        obtain ⟨⟨⟨hdne, hdall⟩, htall⟩, htlen⟩ := hdom
        refine ⟨l, d, t, ?_, ?_, hloc, ?_, hdall, htall, htlen⟩
        · rw [splitAtFirstAt_eq_some hs, splitAtLastDot_eq_some hd]
        · intro hl; rw [hl] at hne; simp at hne
        · intro hdn; rw [hdn] at hdne; simp at hdne
  · rintro ⟨l, d, t, hdec, hlne, hloc, hdne, hdall, htall, htlen⟩
    unfold email_matches
    rw [hdec, splitAtFirstAt_append (no_at_of_all_localChar hloc)]
    simp only [Bool.and_eq_true, Bool.not_eq_true']
    refine ⟨⟨?_, hloc⟩, ?_⟩
    · cases l with
      | nil => exact absurd rfl hlne
      | cons c t2 => simp
    · unfold domainMatch
      rw [splitAtLastDot_append (no_dot_of_all_alpha htall)]
      simp only [Bool.and_eq_true, Bool.not_eq_true', decide_eq_true_eq]
      refine ⟨⟨⟨?_, hdall⟩, htall⟩, htlen⟩
      cases d with
      | nil => exact absurd rfl hdne
      | cons c t2 => simp

/-- Shape of a successful employee validation: the id, name and
department fields are the input values verbatim, and the email field is
the EmailStr-normalized input email, which matches the regex pattern. -/
theorem validate_employee_fields_ok {c0 c : EmployeeCreate}
    (h : validate_employee_fields c0 = .ok c) :
    c0.employee_id ≠ "" ∧ c0.name ≠ "" ∧ c0.department ≠ "" ∧
    email_str_validate c0.email = some c.email ∧ email_matches c.email = true ∧
    c.employee_id = c0.employee_id ∧ c.name = c0.name ∧ c.department = c0.department := by
  unfold validate_employee_fields at h
  by_cases h1 : c0.employee_id = ""
  · simp [h1] at h
  · rw [if_neg h1] at h
    by_cases h2 : c0.name = ""
    · simp [h2] at h
    · rw [if_neg h2] at h
      cases hm : email_str_validate c0.email with
      | none => simp only [hm] at h; cases h
      | some n =>
        simp only [hm] at h
        by_cases h3 : email_matches n = true
        · rw [if_pos h3] at h
          by_cases h4 : c0.department = ""
          · simp [h4] at h
          · rw [if_neg h4] at h
            injection h with hc
            subst hc
            exact ⟨h1, h2, h4, rfl, h3, rfl, rfl, rfl⟩
        · rw [if_neg h3] at h
          cases h

/-! ## Helper lemmas about the store operations -/

theorem any_id_true {l : List Employee} {i : String} (e : Employee)
    (he : e ∈ l) (hi : e.employee_id = i) :
    l.any (fun x => decide (x.employee_id = i)) = true :=
  List.any_eq_true.mpr ⟨e, he, by simp [hi]⟩

theorem any_id_false {l : List Employee} {i : String}
    (h : ∀ e ∈ l, e.employee_id ≠ i) :
    l.any (fun x => decide (x.employee_id = i)) = false := by
  rw [List.any_eq_false]
  intro e he
  simp [h e he]

/-- In a list whose projections under `f` are pairwise distinct, the
elements sharing the projection of a member `a` are exactly `[a]`. -/
theorem filter_eq_singleton_of_nodup_map {α β : Type} [DecidableEq β] {f : α → β} :
    ∀ {l : List α} {a : α}, (l.map f).Nodup → a ∈ l →
      l.filter (fun x => decide (f x = f a)) = [a] := by
  intro l
  induction l with
  | nil => intro a _ ha; simp at ha
  | cons b t ih =>
    intro a hnd ha
    rw [List.map_cons, List.nodup_cons] at hnd
    obtain ⟨hb, hnd⟩ := hnd
    rcases List.mem_cons.mp ha with rfl | hat
    · have ht : t.filter (fun x => decide (f x = f a)) = [] := by
        rw [List.filter_eq_nil_iff]
        intro x hx
        simp only [decide_eq_true_eq]
        intro hfx
        exact hb (hfx ▸ List.mem_map_of_mem f hx)
      simp [List.filter_cons, ht]
    · have hba : f b ≠ f a := by
        intro heq
        exact hb (heq ▸ List.mem_map_of_mem f hat)
      simp [List.filter_cons, hba, ih hnd hat]

/-- Case analysis of crud.py `create_employee`: either the pre-check
finds a conflicting row and nothing is written, or the new row is
appended to the `employees` table. -/
theorem create_employee_eq (db : DB) (c : EmployeeCreate) :
    (db.employees.any (fun x => decide (x.employee_id = c.employee_id)) = true ∧
      create_employee db c = (db, .error .DuplicateEmployee)) ∨
    (db.employees.any (fun x => decide (x.employee_id = c.employee_id)) = false ∧
      create_employee db c =
        ({ db with employees := db.employees ++ [empOf c] }, .ok (empOf c))) := by
  by_cases h : db.employees.any (fun x => decide (x.employee_id = c.employee_id)) = true
  · left
    refine ⟨h, ?_⟩
    unfold create_employee
    rw [if_pos h]
  · right
    rw [Bool.not_eq_true] at h
    refine ⟨h, ?_⟩
    unfold create_employee insert_employee_step db_insert_employee
    have h2 : db.employees.any (fun x => decide (x.employee_id = (empOf c).employee_id)) = false := h
    rw [if_neg (by simp [h]), if_neg (by simp [h2])]

/-- Case analysis of the validated employee-creation endpoint. -/
theorem create_employee_endpoint_eq (db : DB) (p : EmployeePayload) :
    (∃ err : CrudError, create_employee_endpoint db p = (db, .error err)) ∨
    (∃ c0 c : EmployeeCreate,
      parse_employee_payload p = .ok c0 ∧ validate_employee_fields c0 = .ok c ∧
      create_employee_endpoint db p =
        ({ db with employees := db.employees ++ [empOf c] }, .ok (empOf c)) ∧
      db.employees.any (fun x => decide (x.employee_id = c.employee_id)) = false) := by
  cases hp : parse_employee_payload p with
  | error e =>
    exact Or.inl ⟨e, by simp only [create_employee_endpoint, hp]⟩
  | ok c0 =>
    cases hv : validate_employee_fields c0 with
    | error e =>
      exact Or.inl ⟨e, by simp only [create_employee_endpoint, hp, hv]⟩
    | ok c =>
      have hend : create_employee_endpoint db p = create_employee db c := by
        simp only [create_employee_endpoint, hp, hv]
      rcases create_employee_eq db c with ⟨_, hc⟩ | ⟨hany, hc⟩
      · rw [hend, hc]
        exact Or.inl ⟨.DuplicateEmployee, rfl⟩
      · right
        rw [hend]
        exact ⟨c0, c, rfl, hv, hc, hany⟩

theorem storeInv_empty : StoreInv emptyDB := by
  constructor
  · intro a ha; simp [emptyDB] at ha
  · simp [EmpUnique, emptyDB]

theorem storeInv_applyOp {db : DB} (op : Op) (h : StoreInv db) : StoreInv (applyOp db op) := by
  obtain ⟨href, huniq⟩ := h
  cases op with
  | createEmp p =>
    rcases create_employee_endpoint_eq db p with ⟨err, heq⟩ | ⟨c0, c, _, _, heq, hany⟩
    · simp only [applyOp, heq]
      exact ⟨href, huniq⟩
    · simp only [applyOp, heq]
      constructor
      · intro a ha
        obtain ⟨e, he, hei⟩ := href a ha
        exact ⟨e, List.mem_append_left _ he, hei⟩
      · have hnot : c.employee_id ∉ db.employees.map (fun e => e.employee_id) := by
          intro hmem
          obtain ⟨e, he, hei⟩ := List.mem_map.mp hmem
          have := (List.any_eq_false.mp hany) e he
          simp [hei] at this
        unfold EmpUnique at huniq ⊢
        simp only [List.map_append, List.map_cons, List.map_nil]
        rw [List.nodup_append]
        refine ⟨huniq, List.nodup_singleton _, ?_⟩
        intro x hx hx2
        simp only [empOf, List.mem_singleton] at hx2
        subst hx2
        exact hnot hx
  | deleteEmp i =>
    by_cases hany : db.employees.any (fun x => decide (x.employee_id = i)) = true
    · have heq : applyOp db (Op.deleteEmp i) =
          { db with
            employees := db.employees.filter (fun x => decide (x.employee_id ≠ i)),
            attendance := db.attendance.filter (fun a => decide (a.employee_id ≠ i)) } := by
        simp [applyOp, delete_employee, hany]
      rw [heq]
      constructor
      · intro a ha
        rw [List.mem_filter] at ha
        obtain ⟨ha, hai⟩ := ha
        simp only [decide_eq_true_eq] at hai
        obtain ⟨e, he, hei⟩ := href a ha
        refine ⟨e, ?_, hei⟩
        rw [List.mem_filter]
        refine ⟨he, ?_⟩
        simp only [decide_eq_true_eq]
        rw [hei]
        exact hai
      · unfold EmpUnique at huniq ⊢
        exact ((List.filter_sublist _).map _).nodup huniq
    · have heq : applyOp db (Op.deleteEmp i) = db := by
        rw [Bool.not_eq_true] at hany
        simp [applyOp, delete_employee, hany]
      rw [heq]
      exact ⟨href, huniq⟩
  | createAtt c =>
    cases hv : validate_attendance_fields c with
    | error e =>
      have heq : applyOp db (Op.createAtt c) = db := by
        simp [applyOp, create_attendance_endpoint, hv]
      rw [heq]
      exact ⟨href, huniq⟩
    | ok u =>
      by_cases hany : db.employees.any (fun x => decide (x.employee_id = c.employee_id)) = true
      · have heq : applyOp db (Op.createAtt c) =
            { db with
              attendance := db.attendance ++
                [⟨db.next_attendance_id, c.employee_id, c.date, statusEnumOf c.status⟩],
              next_attendance_id := db.next_attendance_id + 1 } := by
          simp [applyOp, create_attendance_endpoint, create_attendance, hv, hany]
        rw [heq]
        constructor
        · intro a ha
          rw [List.mem_append] at ha
          rcases ha with ha | ha
          · exact href a ha
          · rw [List.mem_singleton] at ha
            subst ha
            obtain ⟨e, he, hei⟩ := List.any_eq_true.mp hany
            simp only [decide_eq_true_eq] at hei
            exact ⟨e, he, hei⟩
        · exact huniq
      · have heq : applyOp db (Op.createAtt c) = db := by
          rw [Bool.not_eq_true] at hany
          simp [applyOp, create_attendance_endpoint, create_attendance, hv, hany]
        rw [heq]
        exact ⟨href, huniq⟩

/-- Every reachable store state satisfies the store invariant. -/
theorem reachable_storeInv {db : DB} (h : Reachable db) : StoreInv db := by
  induction h with
  | empty => exact storeInv_empty
  | step op _ ih => exact storeInv_applyOp op ih

/-! ## Helper lemmas about ordering and counting -/

theorem dateDesc_trans : ∀ a b c : Attendance,
    dateDesc a b → dateDesc b c → dateDesc a c := by
  intro a b c hab hbc
  simp only [dateDesc, decide_eq_true_eq] at hab hbc ⊢
  omega

theorem dateDesc_total : ∀ a b : Attendance, dateDesc a b || dateDesc b a := by
  intro a b
  simp only [dateDesc, Bool.or_eq_true, decide_eq_true_eq]
  omega

theorem joinDateDesc_trans : ∀ a b c : Attendance × Employee,
    joinDateDesc a b → joinDateDesc b c → joinDateDesc a c := by
  intro a b c hab hbc
  simp only [joinDateDesc, decide_eq_true_eq] at hab hbc ⊢
  omega

theorem joinDateDesc_total : ∀ a b : Attendance × Employee,
    joinDateDesc a b || joinDateDesc b a := by
  intro a b
  simp only [joinDateDesc, Bool.or_eq_true, decide_eq_true_eq]
  omega

/-- Two filters by incompatible predicates never jointly exceed the
length of the list. -/
theorem length_filter_add_length_filter_le {α : Type} (p q : α → Bool) :
    ∀ l : List α, (∀ a ∈ l, p a = true → q a = false) →
      (l.filter p).length + (l.filter q).length ≤ l.length := by
  intro l
  induction l with
  | nil => simp
  | cons a t ih =>
    intro h
    have ht := ih (fun x hx => h x (List.mem_cons_of_mem a hx))
    by_cases hp : p a = true
    · have hq := h a (List.mem_cons_self a t) hp
      simp [List.filter_cons, hp, hq]
      omega
    · rw [Bool.not_eq_true] at hp
      by_cases hq : q a = true
      · simp [List.filter_cons, hp, hq]
        omega
      · rw [Bool.not_eq_true] at hq
        simp [List.filter_cons, hp, hq]
        omega

/-! ## Claim theorems -/

/-- C1: creating an employee whose `employee_id` is already stored fails
with `DuplicateEmployee` and writes nothing, the store keeps exactly the
one original record with that id, and even the bare insert step (a lost
race past the pre-check) turns the store-reported uniqueness violation
into the same `DuplicateEmployee` outcome. -/
theorem create_employee_duplicate (db : DB) (c : EmployeeCreate) (e0 : Employee)
    (hWF : EmpUnique db) (hmem : e0 ∈ db.employees)
    (hid : e0.employee_id = c.employee_id) :
    create_employee db c = (db, .error .DuplicateEmployee) ∧
    insert_employee_step db c = (db, .error .DuplicateEmployee) ∧
    db.employees.filter (fun e => decide (e.employee_id = c.employee_id)) = [e0] := by
  have hany : db.employees.any (fun x => decide (x.employee_id = c.employee_id)) = true :=
    any_id_true e0 hmem hid
  refine ⟨?_, ?_, ?_⟩
  · unfold create_employee
    rw [if_pos hany]
  · have hins : db_insert_employee db (empOf c) = .error .IntegrityError := by
      simp only [db_insert_employee, empOf]
      rw [if_pos hany]
    unfold insert_employee_step
    rw [hins]
  · have h := filter_eq_singleton_of_nodup_map (f := fun e : Employee => e.employee_id) hWF hmem
    simp only [hid] at h
    exact h

theorem create_employee_duplicate_witness :
    create_employee dbOne ⟨"E1", "Bob", "bob@co.com", "HR"⟩ =
      (dbOne, .error .DuplicateEmployee) ∧
    insert_employee_step dbOne ⟨"E1", "Bob", "bob@co.com", "HR"⟩ =
      (dbOne, .error .DuplicateEmployee) ∧
    dbOne.employees.filter (fun e => decide (e.employee_id = "E1")) = [empAnn] :=
  create_employee_duplicate dbOne ⟨"E1", "Bob", "bob@co.com", "HR"⟩ empAnn
    (by decide) (by decide) (by decide)

/-- C2: every reachable store state satisfies referential integrity
(each attendance row names an existing employee), and an attendance
creation naming an unknown employee fails with `EmployeeNotFound`
leaving the store unchanged. -/
theorem reachable_referential_integrity (db : DB) (h : Reachable db) :
    RefIntegrity db ∧
    ∀ c : AttendanceCreate, (∀ e ∈ db.employees, e.employee_id ≠ c.employee_id) →
      create_attendance db c = (db, .error .EmployeeNotFound) := by
  refine ⟨(reachable_storeInv h).1, ?_⟩
  intro c hc
  have hany := any_id_false hc
  simp [create_attendance, hany]

theorem reachable_referential_integrity_witness :
    RefIntegrity emptyDB ∧
    create_attendance emptyDB ⟨"E9", 10, "Present"⟩ =
      (emptyDB, .error .EmployeeNotFound) := by
  have h := reachable_referential_integrity emptyDB Reachable.empty
  exact ⟨h.1, h.2 ⟨"E9", 10, "Present"⟩ (by decide)⟩

/-- C3: deleting a missing employee returns `false` and changes nothing;
deleting an existing one returns `true` and, in the same state
transition, removes the employee record and every attendance record
with that `employee_id`, while preserving everything else. -/
theorem delete_employee_spec (db : DB) (i : String) :
    ((∀ e ∈ db.employees, e.employee_id ≠ i) → delete_employee db i = (db, false)) ∧
    ((∃ e ∈ db.employees, e.employee_id = i) →
      (delete_employee db i).2 = true ∧
      (∀ e ∈ (delete_employee db i).1.employees, e.employee_id ≠ i) ∧
      (∀ a ∈ (delete_employee db i).1.attendance, a.employee_id ≠ i) ∧
      (∀ a ∈ db.attendance, a.employee_id ≠ i → a ∈ (delete_employee db i).1.attendance) ∧
      (∀ e ∈ db.employees, e.employee_id ≠ i → e ∈ (delete_employee db i).1.employees)) := by
  constructor
  · intro hno
    have hany := any_id_false hno
    simp [delete_employee, hany]
  · rintro ⟨e0, he0, hid⟩
    have hany := any_id_true e0 he0 hid
    have heq : delete_employee db i =
        ({ db with
            employees := db.employees.filter (fun x => decide (x.employee_id ≠ i)),
            attendance := db.attendance.filter (fun a => decide (a.employee_id ≠ i)) },
          true) := by
      simp [delete_employee, hany]
    rw [heq]
    refine ⟨rfl, ?_, ?_, ?_, ?_⟩
    · intro e he
      simpa using (List.mem_filter.mp he).2
    · intro a ha
      simpa using (List.mem_filter.mp ha).2
    · intro a ha hne
      exact List.mem_filter.mpr ⟨ha, by simpa using hne⟩
    · intro e he hne
      exact List.mem_filter.mpr ⟨he, by simpa using hne⟩

theorem delete_employee_spec_witness :
    delete_employee dbOne "E9" = (dbOne, false) ∧
    (delete_employee dbOne "E1").2 = true ∧
    (∀ a ∈ (delete_employee dbOne "E1").1.attendance, a.employee_id ≠ "E1") := by
  refine ⟨(delete_employee_spec dbOne "E9").1 (by decide), ?_⟩
  have h := (delete_employee_spec dbOne "E1").2 ⟨empAnn, by decide, by decide⟩
  exact ⟨h.1, h.2.2.1⟩

/-- C4: creating an attendance record with any status other than the
exact strings "Present" or "Absent" (no case folding, no trimming) is
rejected with `InvalidStatusValue` before the store is touched. -/
theorem attendance_status_closure (db : DB) (c : AttendanceCreate)
    (hid : c.employee_id ≠ "") (hp : c.status ≠ "Present") (ha : c.status ≠ "Absent") :
    create_attendance_endpoint db c = (db, .error .InvalidStatusValue) := by
  have hval : validate_attendance_fields c = .error .InvalidStatusValue := by
    unfold validate_attendance_fields validate_attendance_status
    rw [if_neg hid]
    simp [hp, ha]
  simp [create_attendance_endpoint, hval]

theorem attendance_status_closure_witness :
    create_attendance_endpoint dbOne ⟨"E1", 10, " Present "⟩ =
      (dbOne, .error .InvalidStatusValue) ∧
    create_attendance_endpoint dbOne ⟨"E1", 10, "present"⟩ =
      (dbOne, .error .InvalidStatusValue) ∧
    create_attendance_endpoint dbOne ⟨"E1", 10, "Here"⟩ =
      (dbOne, .error .InvalidStatusValue) :=
  ⟨attendance_status_closure dbOne ⟨"E1", 10, " Present "⟩ (by decide) (by decide) (by decide),
   attendance_status_closure dbOne ⟨"E1", 10, "present"⟩ (by decide) (by decide) (by decide),
   attendance_status_closure dbOne ⟨"E1", 10, "Here"⟩ (by decide) (by decide) (by decide)⟩

/-- C5: listing attendance for an unknown employee fails with
`EmployeeNotFound` (even though a known employee with no records yields
the empty list); for a known employee it returns exactly that
employee's attendance records in date-descending (non-increasing)
order. -/
theorem get_attendance_ordered (db : DB) (i : String) :
    ((∀ e ∈ db.employees, e.employee_id ≠ i) →
      get_attendance_by_employee db i = .error .EmployeeNotFound) ∧
    ((∃ e ∈ db.employees, e.employee_id = i) →
      ∃ l, get_attendance_by_employee db i = .ok l ∧
        l.Perm (db.attendance.filter (fun a => decide (a.employee_id = i))) ∧
        l.Pairwise (fun a b => b.date ≤ a.date)) := by
  constructor
  · intro hno
    have hany := any_id_false hno
    simp [get_attendance_by_employee, hany]
  · rintro ⟨e0, he0, hid⟩
    have hany := any_id_true e0 he0 hid
    refine ⟨(db.attendance.filter (fun a => decide (a.employee_id = i))).mergeSort dateDesc,
      ?_, ?_, ?_⟩
    · simp [get_attendance_by_employee, hany]
    · exact List.mergeSort_perm _ _
    · have hp := List.sorted_mergeSort dateDesc_trans dateDesc_total
        (db.attendance.filter (fun a => decide (a.employee_id = i)))
      exact hp.imp (by intro a b hab; simpa [dateDesc] using hab)

theorem get_attendance_ordered_witness :
    get_attendance_by_employee dbTwo "E9" = .error .EmployeeNotFound ∧
    ∃ l, get_attendance_by_employee dbTwo "E1" = .ok l ∧
      l.Perm (dbTwo.attendance.filter (fun a => decide (a.employee_id = "E1"))) ∧
      l.Pairwise (fun a b => b.date ≤ a.date) :=
  ⟨(get_attendance_ordered dbTwo "E9").1 (by decide),
   (get_attendance_ordered dbTwo "E1").2 ⟨empAnn, by decide, by decide⟩⟩

/-- C6 (counterexample): creating an employee with email "Bob@CO.com"
succeeds but stores and echoes "Bob@co.com" — the EmailStr check
lowercases the domain before storage — so the listing contains no
record whose fields equal the input tuple. -/
theorem email_domain_lowercased :
    (create_employee_endpoint dbOne (payloadOf ⟨"E2", "Bob", "Bob@CO.com", "HR"⟩)).2 =
      .ok ⟨"E2", "Bob", "Bob@co.com", "HR"⟩ ∧
    (get_all_employees
        (create_employee_endpoint dbOne (payloadOf ⟨"E2", "Bob", "Bob@CO.com", "HR"⟩)).1).filter
      (fun e => decide (e = ⟨"E2", "Bob", "Bob@CO.com", "HR"⟩)) = [] := by
  exact ⟨by decide, by decide⟩

/-- C6 (amended): creating an employee from valid field values in a
store without that id succeeds, and the listing afterwards contains
exactly one record matching the stored values: `employee_id`, `name`
and `department` are the input values verbatim, while the email is the
EmailStr-normalized input email (surrounding whitespace stripped,
domain lowercased); when the input email is already in normalized form
the whole record echoes the input verbatim. -/
theorem employee_round_trip (db : DB) (c0 c : EmployeeCreate)
    (hval : validate_employee_fields c0 = .ok c)
    (hnew : ∀ e ∈ db.employees, e.employee_id ≠ c0.employee_id) :
    create_employee_endpoint db (payloadOf c0) =
      ({ db with employees := db.employees ++ [empOf c] }, .ok (empOf c)) ∧
    (get_all_employees { db with employees := db.employees ++ [empOf c] }).filter
      (fun e => decide (e = empOf c)) = [empOf c] ∧
    c.employee_id = c0.employee_id ∧ c.name = c0.name ∧ c.department = c0.department ∧
    email_str_validate c0.email = some c.email ∧
    (email_str_validate c0.email = some c0.email → c = c0) := by
  obtain ⟨_, _, _, hm, _, hid, hn, hd⟩ := validate_employee_fields_ok hval
  have hnew2 : ∀ e ∈ db.employees, e.employee_id ≠ c.employee_id := by
    intro e he
    rw [hid]
    exact hnew e he
  have hany := any_id_false hnew2
  have hparse : parse_employee_payload (payloadOf c0) = .ok c0 := rfl
  have hend : create_employee_endpoint db (payloadOf c0) = create_employee db c := by
    simp only [create_employee_endpoint, hparse, hval]
  refine ⟨?_, ?_, hid, hn, hd, hm, ?_⟩
  · rw [hend]
    rcases create_employee_eq db c with ⟨hany2, _⟩ | ⟨_, hc⟩
    · rw [hany] at hany2
      cases hany2
    · exact hc
  · unfold get_all_employees
    rw [List.filter_append]
    have h1 : db.employees.filter (fun e => decide (e = empOf c)) = [] := by
      rw [List.filter_eq_nil_iff]
      intro e he
      simp only [decide_eq_true_eq]
      intro heq
      exact hnew2 e he (by rw [heq]; rfl)
    rw [h1]
    simp
  · intro hsame
    rw [hm] at hsame
    injection hsame with hemail
    calc c = ⟨c.employee_id, c.name, c.email, c.department⟩ := rfl
    _ = ⟨c0.employee_id, c0.name, c0.email, c0.department⟩ := by rw [hid, hn, hd, hemail]
    _ = c0 := rfl

theorem employee_round_trip_witness :
    create_employee_endpoint dbOne (payloadOf ⟨"E2", "Bob", "bob@co.com", "HR"⟩) =
      ({ dbOne with employees := dbOne.employees ++ [empOf ⟨"E2", "Bob", "bob@co.com", "HR"⟩] },
        .ok (empOf ⟨"E2", "Bob", "bob@co.com", "HR"⟩)) ∧
    (get_all_employees
        { dbOne with employees := dbOne.employees ++ [empOf ⟨"E2", "Bob", "bob@co.com", "HR"⟩] }).filter
      (fun e => decide (e = empOf ⟨"E2", "Bob", "bob@co.com", "HR"⟩)) =
      [empOf ⟨"E2", "Bob", "bob@co.com", "HR"⟩] ∧
    (⟨"E2", "Bob", "bob@co.com", "HR"⟩ : EmployeeCreate).employee_id = "E2" ∧
    (⟨"E2", "Bob", "bob@co.com", "HR"⟩ : EmployeeCreate).name = "Bob" ∧
    (⟨"E2", "Bob", "bob@co.com", "HR"⟩ : EmployeeCreate).department = "HR" ∧
    email_str_validate "bob@co.com" = some "bob@co.com" ∧
    (email_str_validate "bob@co.com" = some "bob@co.com" →
      (⟨"E2", "Bob", "bob@co.com", "HR"⟩ : EmployeeCreate) = ⟨"E2", "Bob", "bob@co.com", "HR"⟩) :=
  employee_round_trip dbOne ⟨"E2", "Bob", "bob@co.com", "HR"⟩ ⟨"E2", "Bob", "bob@co.com", "HR"⟩
    (by decide) (by decide)

/-- C7 (counterexample): a whitespace-only `name` is accepted — the
validation returns success and the employee is created — contradicting
the claim that whitespace-only fields are rejected with
`RequiredFieldMissing`. -/
theorem whitespace_only_fields_accepted :
    validate_employee_fields ⟨"E1", " ", "ann@co.com", "Eng"⟩ =
      .ok ⟨"E1", " ", "ann@co.com", "Eng"⟩ ∧
    (create_employee_endpoint emptyDB (payloadOf ⟨"E1", " ", "ann@co.com", "Eng"⟩)).2 =
      .ok (empOf ⟨"E1", " ", "ann@co.com", "Eng"⟩) := by
  constructor
  · decide
  · decide

/-- C7 (amended): an absent field, or an empty `employee_id`, `name` or
`department`, is rejected with `RequiredFieldMissing` (whitespace-only
non-empty values of those fields are accepted); the email — modelled
for plain ASCII addresses — is first validated and normalized by the
EmailStr check, the regex pattern is then tested on the normalized
value, and the creation fails with `InvalidEmailFormat` exactly when
the EmailStr check rejects the address or its normalized form does not
match the pattern; a successful validation stores the input fields with
the email in normalized form. -/
theorem employee_validation_spec (c : EmployeeCreate) :
    ((∃ c2, validate_employee_fields c = .ok c2) ↔
      c.employee_id ≠ "" ∧ c.name ≠ "" ∧ c.department ≠ "" ∧
      (∃ n, email_str_validate c.email = some n ∧ EmailPattern n)) ∧
    (∀ c2, validate_employee_fields c = .ok c2 →
      c2.employee_id = c.employee_id ∧ c2.name = c.name ∧
      c2.department = c.department ∧ email_str_validate c.email = some c2.email) ∧
    (c.employee_id ≠ "" → c.name ≠ "" →
      (validate_employee_fields c = .error .InvalidEmailFormat ↔
        email_str_validate c.email = none ∨
        ∃ n, email_str_validate c.email = some n ∧ ¬ EmailPattern n)) ∧
    ((c.employee_id = "" ∨ c.name = "" ∨
        ((∃ n, email_str_validate c.email = some n ∧ EmailPattern n) ∧ c.department = "")) →
      validate_employee_fields c = .error .RequiredFieldMissing) ∧
    (∀ p : EmployeePayload,
      (p.employee_id = none ∨ p.name = none ∨ p.email = none ∨ p.department = none) →
      parse_employee_payload p = .error .RequiredFieldMissing) := by
  have hparse : ∀ p : EmployeePayload,
      (p.employee_id = none ∨ p.name = none ∨ p.email = none ∨ p.department = none) →
      parse_employee_payload p = .error .RequiredFieldMissing := by
    intro p hp
    obtain ⟨i, n, e, d⟩ := p
    simp only at hp
    rcases i with _ | i
    · rfl
    · rcases n with _ | n
      · rfl
      · rcases e with _ | e
        · rfl
        · rcases d with _ | d
          · rfl
          · simp at hp
  have hok : ∀ c2, validate_employee_fields c = .ok c2 →
      c2.employee_id = c.employee_id ∧ c2.name = c.name ∧
      c2.department = c.department ∧ email_str_validate c.email = some c2.email := by
    intro c2 h
    obtain ⟨_, _, _, hm, _, hid, hn, hd⟩ := validate_employee_fields_ok h
    exact ⟨hid, hn, hd, hm⟩
  by_cases h1 : c.employee_id = ""
  · exact ⟨by simp [validate_employee_fields, h1], hok, by simp [h1],
      by simp [validate_employee_fields, h1], hparse⟩
  · by_cases h2 : c.name = ""
    · exact ⟨by simp [validate_employee_fields, h1, h2], hok, by simp [h2],
        by simp [validate_employee_fields, h1, h2], hparse⟩
    · cases hm : email_str_validate c.email with
      | none =>
        have hok2 : ∀ c2, validate_employee_fields c = .ok c2 →
            c2.employee_id = c.employee_id ∧ c2.name = c.name ∧
            c2.department = c.department ∧ none = some c2.email := by
          intro c2 h
          have e := hok c2 h
          rw [hm] at e
          exact e
        exact ⟨by simp [validate_employee_fields, h1, h2, hm], hok2,
          by simp [validate_employee_fields, h1, h2, hm],
          by simp [validate_employee_fields, h1, h2, hm], hparse⟩
      | some n =>
        have hok2 : ∀ c2, validate_employee_fields c = .ok c2 →
            c2.employee_id = c.employee_id ∧ c2.name = c.name ∧
            c2.department = c.department ∧ some n = some c2.email := by
          intro c2 h
          have e := hok c2 h
          rw [hm] at e
          exact e
        have hem := email_matches_iff n
        by_cases h3 : email_matches n = true
        · have hep : EmailPattern n := hem.mp h3
          by_cases h4 : c.department = ""
          · exact ⟨by simp [validate_employee_fields, h1, h2, hm, h3, h4], hok2,
              by simp [validate_employee_fields, h1, h2, hm, h3, h4, hep],
              by simp [validate_employee_fields, h1, h2, hm, h3, h4], hparse⟩
          · exact ⟨by simp [validate_employee_fields, h1, h2, hm, h3, h4, hep], hok2,
              by simp [validate_employee_fields, h1, h2, hm, h3, h4, hep],
              by simp [validate_employee_fields, h1, h2, hm, h4, hep], hparse⟩
        · have hnp : ¬ EmailPattern n := fun hp => h3 (hem.mpr hp)
          exact ⟨by simp [validate_employee_fields, h1, h2, hm, h3, hnp], hok2,
            by simp [validate_employee_fields, h1, h2, hm, h3, hnp],
            by simp [validate_employee_fields, h1, h2, hm, h3, hnp], hparse⟩

theorem employee_validation_spec_witness :
    (∃ c2, validate_employee_fields ⟨"E1", "Ann", "Ann@CO.com", "Eng"⟩ = .ok c2) ∧
    validate_employee_fields ⟨"E1", "Ann", "a..b@co.com", "Eng"⟩ =
      .error .InvalidEmailFormat ∧
    validate_employee_fields ⟨"", "Ann", "ann@co.com", "Eng"⟩ =
      .error .RequiredFieldMissing ∧
    parse_employee_payload ⟨some "E1", none, some "ann@co.com", some "Eng"⟩ =
      .error .RequiredFieldMissing := by
  refine ⟨?_, ?_, ?_, ?_⟩
  · exact (employee_validation_spec ⟨"E1", "Ann", "Ann@CO.com", "Eng"⟩).1.mpr
      ⟨by decide, by decide, by decide, "Ann@co.com", by decide,
        (email_matches_iff "Ann@co.com").mp (by decide)⟩
  · exact ((employee_validation_spec ⟨"E1", "Ann", "a..b@co.com", "Eng"⟩).2.2.1
        (by decide) (by decide)).mpr (Or.inl (by decide))
  · exact (employee_validation_spec ⟨"", "Ann", "ann@co.com", "Eng"⟩).2.2.2.1 (Or.inl rfl)
  · exact (employee_validation_spec ⟨"", "Ann", "ann@co.com", "Eng"⟩).2.2.2.2
      ⟨some "E1", none, some "ann@co.com", some "Eng"⟩ (Or.inr (Or.inl rfl))

/-- C8: attendance is not deduplicated per day — two successive
creations with the same `(employee_id, date)` for an existing employee
both succeed, and the store then holds both rows under distinct
system-generated ids. -/
theorem attendance_no_dedup (db : DB) (c : AttendanceCreate)
    (hex : ∃ e ∈ db.employees, e.employee_id = c.employee_id)
    (hval : validate_attendance_fields c = .ok ()) :
    ∃ db1 a1 db2 a2,
      create_attendance_endpoint db c = (db1, .ok a1) ∧
      create_attendance_endpoint db1 c = (db2, .ok a2) ∧
      a1.employee_id = c.employee_id ∧ a2.employee_id = c.employee_id ∧
      a1.date = c.date ∧ a2.date = c.date ∧
      a1.id ≠ a2.id ∧ a1 ∈ db2.attendance ∧ a2 ∈ db2.attendance := by
  obtain ⟨e0, he0, hid⟩ := hex
  have hany := any_id_true e0 he0 hid
  have h1 : create_attendance_endpoint db c =
      ({ db with
          attendance := db.attendance ++
            [⟨db.next_attendance_id, c.employee_id, c.date, statusEnumOf c.status⟩],
          next_attendance_id := db.next_attendance_id + 1 },
        .ok ⟨db.next_attendance_id, c.employee_id, c.date, statusEnumOf c.status⟩) := by
    simp [create_attendance_endpoint, hval, create_attendance, hany]
  have h2 : create_attendance_endpoint
      { db with
          attendance := db.attendance ++
            [⟨db.next_attendance_id, c.employee_id, c.date, statusEnumOf c.status⟩],
          next_attendance_id := db.next_attendance_id + 1 } c =
      ({ db with
          attendance := (db.attendance ++
            [⟨db.next_attendance_id, c.employee_id, c.date, statusEnumOf c.status⟩]) ++
            [⟨db.next_attendance_id + 1, c.employee_id, c.date, statusEnumOf c.status⟩],
          next_attendance_id := db.next_attendance_id + 2 },
        .ok ⟨db.next_attendance_id + 1, c.employee_id, c.date, statusEnumOf c.status⟩) := by
    simp [create_attendance_endpoint, hval, create_attendance, hany]
  refine ⟨_, _, _, _, h1, h2, rfl, rfl, rfl, rfl, ?_, ?_, ?_⟩
  · simp
  · simp
  · simp

theorem attendance_no_dedup_witness :
    ∃ db1 a1 db2 a2,
      create_attendance_endpoint dbOne ⟨"E1", 10, "Present"⟩ = (db1, .ok a1) ∧
      create_attendance_endpoint db1 ⟨"E1", 10, "Present"⟩ = (db2, .ok a2) ∧
      a1.employee_id = "E1" ∧ a2.employee_id = "E1" ∧
      a1.date = 10 ∧ a2.date = 10 ∧
      a1.id ≠ a2.id ∧ a1 ∈ db2.attendance ∧ a2 ∈ db2.attendance :=
  attendance_no_dedup dbOne ⟨"E1", 10, "Present"⟩ ⟨empAnn, by decide, by decide⟩ (by decide)

/-- C9: a rejected creation request — whatever the error — leaves the
store exactly as it was: every error path of the two mutating endpoints
returns the unchanged state. -/
theorem rejected_request_store_unchanged (db : DB) (p : EmployeePayload)
    (c : AttendanceCreate) :
    (∀ err : CrudError, (create_employee_endpoint db p).2 = .error err →
      (create_employee_endpoint db p).1 = db) ∧
    (∀ err : CrudError, (create_attendance_endpoint db c).2 = .error err →
      (create_attendance_endpoint db c).1 = db) := by
  constructor
  · intro err herr
    rcases create_employee_endpoint_eq db p with ⟨e2, heq⟩ | ⟨c0, c2, _, _, heq, _⟩
    · rw [heq]
    · rw [heq] at herr
      simp at herr
  · intro err herr
    cases hv : validate_attendance_fields c with
    | error e => simp [create_attendance_endpoint, hv]
    | ok u =>
      by_cases hany : db.employees.any (fun x => decide (x.employee_id = c.employee_id)) = true
      · have heq : create_attendance_endpoint db c =
            ({ db with
                attendance := db.attendance ++
                  [⟨db.next_attendance_id, c.employee_id, c.date, statusEnumOf c.status⟩],
                next_attendance_id := db.next_attendance_id + 1 },
              .ok ⟨db.next_attendance_id, c.employee_id, c.date, statusEnumOf c.status⟩) := by
          simp [create_attendance_endpoint, hv, create_attendance, hany]
        rw [heq] at herr
        simp at herr
      · rw [Bool.not_eq_true] at hany
        simp [create_attendance_endpoint, create_attendance, hv, hany]

theorem rejected_request_store_unchanged_witness :
    (create_employee_endpoint dbOne (payloadOf ⟨"E1", "Bob", "bob@co.com", "HR"⟩)).1 = dbOne ∧
    (create_attendance_endpoint dbOne ⟨"E1", 10, "Late"⟩).1 = dbOne :=
  ⟨(rejected_request_store_unchanged dbOne
      (payloadOf ⟨"E1", "Bob", "bob@co.com", "HR"⟩) ⟨"E1", 10, "Late"⟩).1
      .DuplicateEmployee (by decide),
   (rejected_request_store_unchanged dbOne
      (payloadOf ⟨"E1", "Bob", "bob@co.com", "HR"⟩) ⟨"E1", 10, "Late"⟩).2
      .InvalidStatusValue (by decide)⟩

/-- C10: the dashboard aggregates are mutually consistent — one
department entry per distinct stored department value, the department
counts sum to `total_employees`, `present_today + absent_today` never
exceeds `total_attendance`, and the recent-attendance list holds at
most 5 entries in date-descending order, each joined to the stored name
of an existing employee. -/
theorem dashboard_consistent (db : DB) (today : Nat) :
    ((get_dashboard_stats db today).departments.map Prod.fst).Nodup ∧
    (∀ d : String, (∃ x ∈ (get_dashboard_stats db today).departments, x.1 = d) ↔
      ∃ e ∈ db.employees, e.department = d) ∧
    ((get_dashboard_stats db today).departments.map Prod.snd).sum =
      (get_dashboard_stats db today).total_employees ∧
    (get_dashboard_stats db today).present_today + (get_dashboard_stats db today).absent_today ≤
      (get_dashboard_stats db today).total_attendance ∧
    (get_dashboard_stats db today).recent_attendance.length ≤ 5 ∧
    (get_dashboard_stats db today).recent_attendance.Pairwise (fun x y => y.date ≤ x.date) ∧
    (∀ r ∈ (get_dashboard_stats db today).recent_attendance,
      ∃ e ∈ db.employees, e.employee_id = r.employee_id ∧ e.name = r.employee_name) := by
  refine ⟨?_, ?_, ?_, ?_, ?_, ?_, ?_⟩
  · simp only [get_dashboard_stats, dept_distribution]
    rw [List.map_map]
    have hcomp : (Prod.fst ∘ fun d => (d, (db.employees.map (fun e => e.department)).count d)) =
        id := rfl
    rw [hcomp, List.map_id]
    exact (db.employees.map (fun e => e.department)).nodup_dedup
  · intro d
    simp only [get_dashboard_stats, dept_distribution]
    constructor
    · rintro ⟨x, hx, hxd⟩
      obtain ⟨d2, hd2, rfl⟩ := List.mem_map.mp hx
      have hmem : d2 ∈ db.employees.map (fun e => e.department) := List.mem_dedup.mp hd2
      obtain ⟨e, he, hed⟩ := List.mem_map.mp hmem
      exact ⟨e, he, by rw [hed]; exact hxd⟩
    · rintro ⟨e, he, hed⟩
      refine ⟨(d, (db.employees.map (fun e => e.department)).count d), ?_, rfl⟩
      apply List.mem_map.mpr
      refine ⟨d, ?_, rfl⟩
      rw [List.mem_dedup]
      exact List.mem_map.mpr ⟨e, he, hed⟩
  · simp only [get_dashboard_stats, dept_distribution]
    rw [List.map_map]
    have hcomp : (Prod.snd ∘ fun d => (d, (db.employees.map (fun e => e.department)).count d)) =
        fun d => (db.employees.map (fun e => e.department)).count d := rfl
    rw [hcomp, List.sum_map_count_dedup_eq_length, List.length_map]
  · simp only [get_dashboard_stats]
    apply length_filter_add_length_filter_le
    intro a _ hpa
    rw [Bool.and_eq_true] at hpa
    obtain ⟨hd, hs⟩ := hpa
    rw [decide_eq_true_eq] at hs
    simp [hs]
  · simp only [get_dashboard_stats]
    rw [List.length_map, List.length_take]
    exact Nat.min_le_left _ _
  · simp only [get_dashboard_stats]
    have hsorted := List.sorted_mergeSort joinDateDesc_trans joinDateDesc_total
      (attendance_employee_join db)
    have htake := List.Pairwise.sublist (List.take_sublist 5 _) hsorted
    refine List.Pairwise.map _ ?_ htake
    intro p q h
    simpa [joinDateDesc] using h
  · intro r hr
    simp only [get_dashboard_stats] at hr
    obtain ⟨p, hp, rfl⟩ := List.mem_map.mp hr
    have hpj : p ∈ attendance_employee_join db :=
      List.mem_mergeSort.mp ((List.take_sublist 5 _).subset hp)
    unfold attendance_employee_join at hpj
    obtain ⟨a, ha, hsome⟩ := List.mem_filterMap.mp hpj
    cases hfind : db.employees.find? (fun e => decide (e.employee_id = a.employee_id)) with
    | none =>
      rw [hfind] at hsome
      simp at hsome
    | some e =>
      rw [hfind] at hsome
      simp only [Option.some.injEq] at hsome
      subst hsome
      have hee := List.mem_of_find?_eq_some hfind
      have heid : e.employee_id = a.employee_id := by
        have := List.find?_some hfind
        simpa using this
      exact ⟨e, hee, heid, rfl⟩

theorem dashboard_consistent_witness :
    ((get_dashboard_stats dbTwo 5).departments.map Prod.snd).sum =
      (get_dashboard_stats dbTwo 5).total_employees ∧
    (get_dashboard_stats dbTwo 5).present_today + (get_dashboard_stats dbTwo 5).absent_today ≤
      (get_dashboard_stats dbTwo 5).total_attendance ∧
    (∃ e ∈ dbTwo.employees, e.department = "Eng") := by
  have h := dashboard_consistent dbTwo 5
  refine ⟨h.2.2.1, h.2.2.2.1, ?_⟩
  exact (h.2.1 "Eng").mp ⟨("Eng", 1), by decide, rfl⟩

end HRMS
